import Mathlib

/-!
Shallow embedding of `src/csv_profiler/profiler.py` (class `DataProfiler`),
with theorems checking the natural-language specification against it.

Modelling conventions:
* Python strings are `String`; a CSV cell is `Option String` (`none` = field
  missing from the record; the code treats a missing field and `""` alike).
* Python numbers flowing through `float(...)` are modelled exactly as `ℚ`
  (decimal/scientific literals are rational); IEEE infinities and NaN, which
  `float("inf")` etc. would produce, are outside the rational model, so
  `parseValue` returns `none` for them and theorems that need every numeric
  token to be finite carry that as an explicit hypothesis.
* `statistics.stdev` is `Real.sqrt` of the sample variance; the embedding
  keeps the (rational) variance and theorem statements apply `Real.sqrt`
  where the code's standard deviation is meant.  The guard
  `stdev_x > 0 and stdev_y > 0` is embedded as positivity of the variances,
  which is equivalent since `Real.sqrt v > 0 ↔ v > 0` for `v ≥ 0`.
* Python `dict` / `collections.Counter` preserve first-insertion key order;
  they are modelled as association lists built in that order (`countsOf`),
  and `Counter.most_common(n)` as a stable descending insertion sort
  followed by `take n` (`heapq.nlargest` is stable in exactly this sense).
-/

namespace CSVProfiler

/-! ### Type classifier: `DataProfiler._infer_type`

`int(s)` / `float(s)` acceptance is modelled on the ASCII core of the Python
numeric grammars (optional sign, decimal digits, optional fraction/exponent,
and the `inf`/`infinity`/`nan` words for `float`); underscore digit
separators and non-ASCII digits are not modelled. -/

/-- ASCII whitespace for `str.strip()`. -/
def isPySpace (c : Char) : Bool :=
  c = ' ' ∨ c = '\t' ∨ c = '\n' ∨ c = '\r' ∨ c = '\x0b' ∨ c = '\x0c'

/-- `str.strip()` on the character list (ASCII whitespace). -/
def stripChars (cs : List Char) : List Char :=
  ((cs.dropWhile isPySpace).reverse.dropWhile isPySpace).reverse

/-- `str.strip()`. -/
def pyStrip (s : String) : String := String.mk (stripChars s.toList)

/-- `str.lower()` on one character (ASCII). -/
def lowerChar (c : Char) : Char :=
  if 'A' ≤ c ∧ c ≤ 'Z' then Char.ofNat (c.toNat + 32) else c

/-- `str.lower()`. -/
def pyLower (s : String) : String := String.mk (s.toList.map lowerChar)

/-- `str.endswith(suffix)`. -/
def pyEndsWith (s suffix : String) : Bool :=
  s.toList.drop (s.toList.length - suffix.toList.length) = suffix.toList

/-- Drop one leading `+`/`-` sign, as the Python numeric grammars allow. -/
def dropSign : List Char → List Char
  | c :: rest => if c = '+' ∨ c = '-' then rest else c :: rest
  | [] => []

/-- Model of `int(s)` succeeding (after the code's `strip()`): an optional
sign followed by at least one decimal digit. -/
def isIntToken (s : String) : Bool :=
  let ds := dropSign s.toList
  !ds.isEmpty && ds.all Char.isDigit

/-- Exponent suffix of a float literal: empty, or `e`/`E`, an optional sign
and at least one digit, consuming the whole rest of the input. -/
def isExpTail : List Char → Bool
  | [] => true
  | c :: rest =>
    (c = 'e' ∨ c = 'E') &&
      (let ds := dropSign rest
       !ds.isEmpty && ds.all Char.isDigit)

/-- Unsigned body of a float literal: `digits [. digits] [exp]` or
`. digits [exp]`. -/
def isFloatBody (cs : List Char) : Bool :=
  let (d1, r1) := cs.span Char.isDigit
  match r1 with
  | '.' :: r2 =>
    let (d2, r3) := r2.span Char.isDigit
    (!d1.isEmpty || !d2.isEmpty) && isExpTail r3
  | [] => !d1.isEmpty
  | _ => !d1.isEmpty && isExpTail r1

/-- Model of `float(s)` succeeding: optional sign, then a numeric body or
one of the words `inf`, `infinity`, `nan` (case-insensitive). -/
def isFloatToken (s : String) : Bool :=
  let cs := dropSign s.toList
  isFloatBody cs || pyLower (String.mk cs) ∈ (["inf", "infinity", "nan"] : List String)

/-- `DataProfiler._infer_type`: `None`/`""` → `null`; else on the stripped
value try `int`, then `float`, then the boolean word set, else `string`. -/
def inferType (value : Option String) : String :=
  match value with
  | none => "null"
  | some v =>
    if v = "" then "null"
    else
      let s := pyStrip v
      if isIntToken s then "int"
      else if isFloatToken s then "float"
      else if pyLower s ∈ (["true", "false", "yes", "no", "1", "0"] : List String) then "bool"
      else "string"

/-- `DataProfiler._is_numeric`. -/
def isNumericType (t : String) : Bool := t == "int" || t == "float"

/-! ### Numeric parsing: `DataProfiler._parse_value(value, "float")`

The code parses every retained numeric sample with `float(value)`; the model
returns the exact rational value of the literal (and `none` for the
non-finite words `inf`/`infinity`/`nan`, see the header comment). -/

/-- Value of a list of decimal digits. -/
def digitsToNat (ds : List Char) : Nat :=
  ds.foldl (fun n c => 10 * n + (c.toNat - '0'.toNat)) 0

/-- Parse the exponent suffix (must consume the whole input); `some e`
yields a factor `10 ^ e`. -/
def parseExpTail : List Char → Option Int
  | [] => some 0
  | c :: rest =>
    if c = 'e' ∨ c = 'E' then
      match rest with
      | '-' :: ds => if !ds.isEmpty && ds.all Char.isDigit then some (-(digitsToNat ds : Int)) else none
      | '+' :: ds => if !ds.isEmpty && ds.all Char.isDigit then some (digitsToNat ds : Int) else none
      | ds => if !ds.isEmpty && ds.all Char.isDigit then some (digitsToNat ds : Int) else none
    else none

/-- Exact rational value of a finite Python float literal, `none` when
`float(s)` would fail or yield a non-finite value. -/
def parseRat (s : String) : Option ℚ :=
  let cs := stripChars s.toList
  let sign : ℚ := match cs with
    | '-' :: _ => -1
    | _ => 1
  let body := dropSign cs
  let (d1, r1) := body.span Char.isDigit
  match r1 with
  | '.' :: r2 =>
    let (d2, r3) := r2.span Char.isDigit
    if d1.isEmpty && d2.isEmpty then none
    else (parseExpTail r3).map fun e =>
      sign * (digitsToNat (d1 ++ d2) : ℚ) / 10 ^ d2.length * (10 : ℚ) ^ e
  | [] => if d1.isEmpty then none else some (sign * (digitsToNat d1 : ℚ))
  | _ =>
    if d1.isEmpty then none
    else (parseExpTail r1).map fun e => sign * (digitsToNat d1 : ℚ) * (10 : ℚ) ^ e

/-- `DataProfiler._parse_value(value, "float")`: `None` on empty/blank input,
else `float(value)` (or `None` when that raises). -/
def parseValue (value : String) : Option ℚ :=
  if value = "" ∨ pyStrip value = "" then none
  else parseRat value

/-! ### `collections.Counter` model

`value_counts[header][value] += 1` on a `Counter` keeps keys in
first-insertion order; `most_common(n)` returns the `n` largest by count,
ties resolved toward the earlier-inserted key. -/

/-- One `counter[v] += 1` step on an insertion-ordered association list. -/
def bump (v : String) : List (String × Nat) → List (String × Nat)
  | [] => [(v, 1)]
  | p :: ps => if p.1 = v then (p.1, p.2 + 1) :: ps else p :: bump v ps

/-- The `Counter` built from a list of occurrences, keys in first-seen order. -/
def countsOf (l : List String) : List (String × Nat) :=
  l.foldl (fun acc v => bump v acc) []

/-- Insert into a count-descending list, after every entry of count ≥ its own
(so that, among equal counts, earlier-inserted entries stay first). -/
def insertDesc (p : String × Nat) : List (String × Nat) → List (String × Nat)
  | [] => [p]
  | q :: qs => if q.2 < p.2 then p :: q :: qs else q :: insertDesc p qs

/-- Stable sort by count, descending. -/
def sortDesc (l : List (String × Nat)) : List (String × Nat) :=
  l.foldl (fun acc p => insertDesc p acc) []

/-- `Counter.most_common(k)`. -/
def mostCommon (k : Nat) (counts : List (String × Nat)) : List (String × Nat) :=
  (sortDesc counts).take k

/-- The values of a stream in the order they are first encountered
(the key order of an insertion-ordered dict). -/
def firstOccurrences (l : List String) : List String :=
  l.foldl (fun ks v => if v ∈ ks then ks else ks ++ [v]) []

/-! ### Per-column aggregation and statistics (`DataProfiler.profile`) -/

/-- A record produced by the row source: column name ↦ raw string value.
`row.get(header, "")` is modelled by `cellOf`. -/
def Row : Type := List (String × String)

/-- The raw cell a row yields for a header; `none` when the key is absent
(the code's `row.get(header, "")` default, treated as null below). -/
def cellOf (r : Row) (h : String) : Option String :=
  List.lookup h r

/-- The code's null test: `value is None or value == ""`. -/
def cellIsNull (c : Option String) : Bool :=
  match c with
  | none => true
  | some v => v = ""

/-- `col_types[header]`: one entry per row, `"null"` for null cells, the
inferred type otherwise. -/
def colTypes (cells : List (Option String)) : List String :=
  cells.map fun c => if cellIsNull c then "null" else inferType c

/-- `col_values[header]`: the non-null raw values, in row order. -/
def colValues (cells : List (Option String)) : List String :=
  cells.filterMap fun c =>
    match c with
    | none => none
    | some v => if v = "" then none else some v

/-- `null_counts[header]`. -/
def nullCount (cells : List (Option String)) : Nat :=
  cells.countP cellIsNull

/-- `numeric_samples[header]`: for each non-null value classified `int` or
`float`, the result of `_parse_value(value, "float")` when it parses. -/
def numericSamples (cells : List (Option String)) : List ℚ :=
  (colValues cells).filterMap fun v =>
    if isNumericType (inferType (some v)) then parseValue v else none

/-- `non_null_types = [t for t in types if t != "null"]`. -/
def nonNullOf (types : List String) : List String :=
  types.filter fun t => !(t == "null")

/-- Primary type resolution (`profile`, lines 283–295): `"null"` with no
non-null types; `"numeric"` when all non-null types are int/float (and there
is one); `"mixed"` when more than one distinct type occurs; else the single
type via `most_common(1)[0][0]`. -/
def primaryType (types : List String) : String :=
  if nonNullOf types = [] then "null"
  else if ((nonNullOf types).filter isNumericType).length = (nonNullOf types).length ∧
      (nonNullOf types).filter isNumericType ≠ [] then "numeric"
  else if 1 < (countsOf (nonNullOf types)).length then "mixed"
  else ((mostCommon 1 (countsOf (nonNullOf types))).headD ("", 0)).1

/-- `statistics.mean`. -/
def meanQ (xs : List ℚ) : ℚ := xs.sum / (xs.length : ℚ)

/-- Sample variance, `n − 1` denominator: the square of `statistics.stdev`. -/
def varSamp (xs : List ℚ) : ℚ :=
  ((xs.map fun x => (x - meanQ xs) ^ 2).sum) / ((xs.length : ℚ) - 1)

/-- The numerator sum of the code's covariance:
`sum((u - mean_x) * (v - mean_y) for u, v in zip(xa_s, xb_s))`. -/
def covSumQ (xs ys : List ℚ) : ℚ :=
  ((xs.zip ys).map fun p => (p.1 - meanQ xs) * (p.2 - meanQ ys)).sum

/-- Insert into an ascending list (for `statistics.median`'s sort). -/
def insertAsc (x : ℚ) : List ℚ → List ℚ
  | [] => [x]
  | y :: ys => if x ≤ y then x :: y :: ys else y :: insertAsc x ys

/-- Ascending sort. -/
def sortAsc (xs : List ℚ) : List ℚ :=
  xs.foldl (fun acc x => insertAsc x acc) []

/-- `statistics.median`: middle order statistic, mean of the two middles for
even counts. -/
def medianQ (xs : List ℚ) : ℚ :=
  let s := sortAsc xs
  let n := s.length
  if n % 2 = 1 then s.getD (n / 2) 0
  else (s.getD (n / 2 - 1) 0 + s.getD (n / 2) 0) / 2

/-- Python `min` over a nonempty list. -/
def listMin : List ℚ → Option ℚ
  | [] => none
  | x :: xs => some (xs.foldl min x)

/-- Python `max` over a nonempty list. -/
def listMax : List ℚ → Option ℚ
  | [] => none
  | x :: xs => some (xs.foldl max x)

/-- The finalized per-column record. `std_dev_sq` holds the square of the
code's `std_dev` (see the header comment): the code's value is
`Real.sqrt` of it. -/
structure ColumnProfile where
  name : String
  data_type : String
  total_rows : Nat
  null_count : Nat
  null_percentage : ℚ
  duplicate_rows : Int
  distinct_values : Nat
  most_frequent : List (String × Nat)
  min_value : Option ℚ
  max_value : Option ℚ
  mean : Option ℚ
  median : Option ℚ
  std_dev_sq : Option ℚ
  deriving Repr, DecidableEq

/-- `numeric_values` (lines 300–306): the re-parse of all non-null values,
performed only for columns whose resolved type is int/float/numeric. -/
def statValues (cells : List (Option String)) : List ℚ :=
  if isNumericType (primaryType (colTypes cells)) ∨ primaryType (colTypes cells) = "numeric"
  then (colValues cells).filterMap parseValue
  else []

/-- The per-column finalization of `profile` (lines 278–344) for one header,
given that column's cells and the shared `total_rows`. -/
def profileColumn (h : String) (cells : List (Option String)) (totalRows : Nat) :
    ColumnProfile :=
  let values := colValues cells
  let nc := nullCount cells
  { name := h
    data_type := primaryType (colTypes cells)
    total_rows := totalRows
    null_count := nc
    null_percentage := if 0 < totalRows then (nc : ℚ) / (totalRows : ℚ) * 100 else 0
    duplicate_rows := if values ≠ [] then (totalRows : Int) - (countsOf values).length else 0
    distinct_values := (countsOf values).length
    most_frequent := mostCommon 5 (countsOf values)
    min_value := if statValues cells ≠ [] then listMin (statValues cells) else none
    max_value := if statValues cells ≠ [] then listMax (statValues cells) else none
    mean := if statValues cells ≠ [] then some (meanQ (statValues cells)) else none
    median := if statValues cells ≠ [] then some (medianQ (statValues cells)) else none
    std_dev_sq :=
      if statValues cells ≠ [] then
        if 1 < (statValues cells).length then some (varSamp (statValues cells)) else some 0
      else none }

/-- `DataProfiler._create_empty_profiles` for one header. -/
def emptyProfile (h : String) : ColumnProfile :=
  { name := h, data_type := "unknown", total_rows := 0, null_count := 0
    null_percentage := 0, duplicate_rows := 0, distinct_values := 0
    most_frequent := [], min_value := none, max_value := none
    mean := none, median := none, std_dev_sq := none }

/-- The cells one header sees down the row stream. -/
def colCells (rows : List Row) (h : String) : List (Option String) :=
  rows.map fun r => cellOf r h

/-- `DataProfiler.profile`'s per-column output: empty profiles on a zero-row
stream, else one finalized profile per header. -/
def profileRun (headers : List String) (rows : List Row) :
    List (String × ColumnProfile) :=
  if rows.length = 0 then headers.map fun h => (h, emptyProfile h)
  else headers.map fun h => (h, profileColumn h (colCells rows h) rows.length)

/-! ### Correlation matrix (`profile`, lines 365–389) -/

/-- All pairs `(l[i], l[j])` with `i < j`, in the code's loop order. -/
def ltPairs {α : Type} : List α → List (α × α)
  | [] => []
  | x :: xs => (xs.map fun y => (x, y)) ++ ltPairs xs

/-- `numeric_cols`: headers with at least 2 retained numeric samples
(`h in numeric_samples and len(numeric_samples[h]) > 1`; the `defaultdict`
key exists exactly when a sample was appended). -/
def numericCols (headers : List String) (rows : List Row) : List String :=
  headers.filter fun h => 1 < (numericSamples (colCells rows h)).length

/-- The matrix value for one `i < j` pair of sample lists: `none` mirrors the
code's `None`; `some (c, vx, vy)` holds the covariance (`n − 1` denominator)
and the two sample variances of the length-aligned samples, so the code's
float entry is `c / (Real.sqrt vx * Real.sqrt vy)`.  The guard
`stdev_x > 0 and stdev_y > 0` is the positivity of `vx` and `vy`. -/
def corrPair (xs ys : List ℚ) : Option (ℚ × ℚ × ℚ) :=
  let n := min xs.length ys.length
  if n < 2 then none
  else
    let xa := xs.take n
    let xb := ys.take n
    let c := covSumQ xa xb / ((n : ℚ) - 1)
    let vx := varSamp xa
    let vy := varSamp xb
    if 0 < vx ∧ 0 < vy then some (c, vx, vy) else none

/-- `self.correlation_matrix` as an association list: for every `i < j` pair
of numeric columns, entries under both key orders with the same value. -/
def corrMatrix (headers : List String) (rows : List Row) :
    List ((String × String) × Option (ℚ × ℚ × ℚ)) :=
  (ltPairs (numericCols headers rows)).flatMap fun p =>
    let c := corrPair (numericSamples (colCells rows p.1)) (numericSamples (colCells rows p.2))
    [((p.1, p.2), c), ((p.2, p.1), c)]

/-- Dictionary lookup on the matrix (keys are unique when the header list
has no duplicates, so first-match equals Python's dict). -/
def findEntry (k : String × String)
    (m : List ((String × String) × Option (ℚ × ℚ × ℚ))) :
    Option (Option (ℚ × ℚ × ℚ)) :=
  match m with
  | [] => none
  | e :: es => if e.1 = k then some e.2 else findEntry k es

/-! ### Constructor and error path (`__init__`, lines 53–67; `profile`,
lines 150–276) -/

/-- `DataProfiler.__init__`'s validation: missing file, then the `.csv`
extension check. -/
def initCheck (filepath : String) (fileExists : Bool) : Except String Unit :=
  if !fileExists then Except.error ("File not found: " ++ filepath)
  else if !(pyEndsWith (pyLower filepath) ".csv") then
    Except.error "File must be a CSV file (.csv)"
  else Except.ok ()

/-- The extensions `profile`'s reader dispatch decodes (lines 153, 189, 230);
anything else raises `Unsupported file type`. -/
def profileExtOk (ext : String) : Bool :=
  ext = ".csv" || ext = ".json" || ext = ".parquet" || ext = ".pq"

/-- The mutable profiler object state relevant to the failure path. -/
structure ProfilerState where
  profiles : List (String × ColumnProfile)
  total_rows : Nat
  headers : List String
  deriving Repr, DecidableEq

/-- The state `__init__` leaves behind: empty profiles mapping. -/
def initialState : ProfilerState :=
  { profiles := [], total_rows := 0, headers := [] }

/-- One `profile()` call: row acquisition either fails (any exception is
re-raised as `RuntimeError(f"Error reading file: {e}")` before
`self.profiles` is touched) or yields headers and rows, after which the
profiles are computed; on a zero-row stream the code returns the empty
profiles without assigning `self.profiles`. -/
def profileCall (readResult : Except String (List String × List Row))
    (st : ProfilerState) :
    Except String (List (String × ColumnProfile)) × ProfilerState :=
  match readResult with
  | Except.error e => (Except.error ("Error reading file: " ++ e), st)
  | Except.ok (headers, rows) =>
    let profs := profileRun headers rows
    (Except.ok profs,
      { st with
        headers := headers
        total_rows := rows.length
        profiles := if rows.length = 0 then st.profiles else profs })

/-! ### Statements of spec claims under test -/

/-- Claim C1 exactly as stated: `numeric` when all non-null observed values
are int/float; `mixed` when more than one distinct NON-NUMERIC type appears
among the non-null values; otherwise the single observed type; `null` when
no non-null value occurred. -/
def claimC1Stmt : Prop :=
  ∀ cells : List (Option String),
    (nonNullOf (colTypes cells) = [] → primaryType (colTypes cells) = "null") ∧
    (nonNullOf (colTypes cells) ≠ [] →
      ((nonNullOf (colTypes cells)).all isNumericType = true →
        primaryType (colTypes cells) = "numeric") ∧
      (1 < (countsOf ((nonNullOf (colTypes cells)).filter
          fun t => !(isNumericType t))).length →
        primaryType (colTypes cells) = "mixed") ∧
      (¬ (nonNullOf (colTypes cells)).all isNumericType = true →
        ¬ 1 < (countsOf ((nonNullOf (colTypes cells)).filter
            fun t => !(isNumericType t))).length →
        ∃ t, (∀ u ∈ nonNullOf (colTypes cells), u = t) ∧
          primaryType (colTypes cells) = t))

/-- The generic shape of the correlation-matrix construction: one value per
`i < j` pair, written under both key orders. -/
def pairEntries (g : String × String → Option (ℚ × ℚ × ℚ))
    (ps : List (String × String)) :
    List ((String × String) × Option (ℚ × ℚ × ℚ)) :=
  ps.flatMap fun p => [((p.1, p.2), g p), ((p.2, p.1), g p)]

/-- The per-pair value feeding `corrMatrix`. -/
def corrOf (rows : List Row) (p : String × String) : Option (ℚ × ℚ × ℚ) :=
  corrPair (numericSamples (colCells rows p.1)) (numericSamples (colCells rows p.2))

/-! ### Supporting lemmas -/

/-- The classifier only ever produces one of the five atomic type names. -/
theorem inferType_mem_atomic (v : Option String) :
    inferType v ∈ (["null", "int", "float", "bool", "string"] : List String) := by
  rcases v with _ | s
  · simp [inferType]
  · simp only [inferType]
    repeat' split
    all_goals simp

theorem bump_ne_nil (v : String) (acc : List (String × Nat)) : bump v acc ≠ [] := by
  cases acc with
  | nil => simp [bump]
  | cons p ps => simp only [bump]; split <;> simp

theorem foldl_bump_ne_nil (l : List String) :
    ∀ acc : List (String × Nat), acc ≠ [] →
      l.foldl (fun a v => bump v a) acc ≠ [] := by
  induction l with
  | nil => intro acc h; simpa using h
  | cons v vs ih => intro acc _; exact ih (bump v acc) (bump_ne_nil v acc)

theorem countsOf_ne_nil {l : List String} (h : l ≠ []) : countsOf l ≠ [] := by
  cases l with
  | nil => exact absurd rfl h
  | cons v vs => exact foldl_bump_ne_nil vs (bump v []) (bump_ne_nil v [])

theorem mem_keys_bump (a v : String) (acc : List (String × Nat)) :
    a ∈ (bump v acc).map Prod.fst ↔ a = v ∨ a ∈ acc.map Prod.fst := by
  induction acc with
  | nil => simp [bump]
  | cons p ps ih =>
    rcases p with ⟨k, c⟩
    by_cases hp : k = v
    · subst hp
      simp [bump]
    · simp [bump, hp, ih]
      tauto

theorem mem_keys_countsOf (a : String) (l : List String) :
    a ∈ (countsOf l).map Prod.fst ↔ a ∈ l := by
  suffices h : ∀ acc : List (String × Nat),
      (a ∈ (l.foldl (fun ac v => bump v ac) acc).map Prod.fst ↔
        a ∈ acc.map Prod.fst ∨ a ∈ l) by
    simpa [countsOf] using h []
  induction l with
  | nil => intro acc; simp
  | cons v vs ih =>
    intro acc
    simp only [List.foldl_cons, ih (bump v acc), mem_keys_bump, List.mem_cons]
    tauto

theorem primaryType_null {types : List String} (h : nonNullOf types = []) :
    primaryType types = "null" := by
  rw [primaryType, if_pos h]

theorem all_of_filter_length_eq {types : List String}
    (h : ((nonNullOf types).filter isNumericType).length = (nonNullOf types).length) :
    (nonNullOf types).all isNumericType = true := by
  rw [List.all_eq_true]
  exact List.filter_eq_self.mp ((List.filter_sublist ..).eq_of_length h)

theorem numeric_cond_of_all {types : List String} (h1 : nonNullOf types ≠ [])
    (h2 : (nonNullOf types).all isNumericType = true) :
    ((nonNullOf types).filter isNumericType).length = (nonNullOf types).length ∧
      (nonNullOf types).filter isNumericType ≠ [] := by
  have hf : (nonNullOf types).filter isNumericType = nonNullOf types :=
    List.filter_eq_self.mpr (List.all_eq_true.mp h2)
  exact ⟨by rw [hf], by rw [hf]; exact h1⟩

theorem primaryType_numeric {types : List String} (h1 : nonNullOf types ≠ [])
    (h2 : (nonNullOf types).all isNumericType = true) :
    primaryType types = "numeric" := by
  rw [primaryType, if_neg h1, if_pos (numeric_cond_of_all h1 h2)]

theorem primaryType_mixed {types : List String} (h1 : nonNullOf types ≠ [])
    (h2 : ¬ (nonNullOf types).all isNumericType = true)
    (h3 : 1 < (countsOf (nonNullOf types)).length) :
    primaryType types = "mixed" := by
  rw [primaryType, if_neg h1, if_neg (fun hc => h2 (all_of_filter_length_eq hc.1)),
    if_pos h3]

theorem countsOf_singleton_of_le_one {l : List String} (h1 : l ≠ [])
    (h3 : ¬ 1 < (countsOf l).length) :
    ∃ t c, countsOf l = [(t, c)] ∧ ∀ u ∈ l, u = t := by
  have hne : countsOf l ≠ [] := countsOf_ne_nil h1
  have hlen : (countsOf l).length = 1 := by
    have h0 : 0 < (countsOf l).length := List.length_pos.mpr hne
    omega
  obtain ⟨p, hp⟩ := List.length_eq_one.mp hlen
  refine ⟨p.1, p.2, by rw [hp], fun u hu => ?_⟩
  have := (mem_keys_countsOf u l).mpr hu
  rw [hp] at this
  simpa using this

theorem primaryType_single {types : List String} (h1 : nonNullOf types ≠ [])
    (h2 : ¬ (nonNullOf types).all isNumericType = true)
    (h3 : ¬ 1 < (countsOf (nonNullOf types)).length) :
    ∃ t, (∀ u ∈ nonNullOf types, u = t) ∧ primaryType types = t := by
  obtain ⟨t, c, htc, hall⟩ := countsOf_singleton_of_le_one h1 h3
  refine ⟨t, hall, ?_⟩
  rw [primaryType, if_neg h1, if_neg (fun hc => h2 (all_of_filter_length_eq hc.1)),
    if_neg h3, htc]
  rfl

/-- The resolved type is never the bare `"int"` or `"float"`: the single-type
branch cannot return them, because a lone distinct numeric type makes the
`"numeric"` branch fire first. -/
theorem primaryType_ne_int_float (types : List String) :
    primaryType types ≠ "int" ∧ primaryType types ≠ "float" := by
  by_cases h1 : nonNullOf types = []
  · rw [primaryType_null h1]; exact ⟨by decide, by decide⟩
  · by_cases h2 : (nonNullOf types).all isNumericType = true
    · rw [primaryType_numeric h1 h2]; exact ⟨by decide, by decide⟩
    · by_cases h3 : 1 < (countsOf (nonNullOf types)).length
      · rw [primaryType_mixed h1 h2 h3]; exact ⟨by decide, by decide⟩
      · obtain ⟨t, hall, hpt⟩ := primaryType_single h1 h2 h3
        rw [hpt]
        constructor
        · rintro rfl
          exact h2 (List.all_eq_true.mpr fun u hu => by rw [hall u hu]; rfl)
        · rintro rfl
          exact h2 (List.all_eq_true.mpr fun u hu => by rw [hall u hu]; rfl)

/-- Every entry of `col_types` is one of the five atomic type names. -/
theorem mem_colTypes_atomic {u : String} {cells : List (Option String)}
    (hu : u ∈ colTypes cells) :
    u ∈ (["null", "int", "float", "bool", "string"] : List String) := by
  rw [colTypes, List.mem_map] at hu
  obtain ⟨c, -, rfl⟩ := hu
  split
  · simp
  · exact inferType_mem_atomic c

theorem mem_insertDesc (r p : String × Nat) (acc : List (String × Nat)) :
    r ∈ insertDesc p acc ↔ r = p ∨ r ∈ acc := by
  induction acc with
  | nil => simp [insertDesc]
  | cons q qs ih =>
    simp only [insertDesc]
    split
    · simp [List.mem_cons]
    · simp only [List.mem_cons, ih]
      tauto

theorem insertDesc_sorted {p : String × Nat} {acc : List (String × Nat)}
    (h : acc.Pairwise fun a b => b.2 ≤ a.2) :
    (insertDesc p acc).Pairwise fun a b => b.2 ≤ a.2 := by
  induction acc with
  | nil => simp [insertDesc]
  | cons q qs ih =>
    rw [List.pairwise_cons] at h
    simp only [insertDesc]
    split
    case isTrue hlt =>
      rw [List.pairwise_cons]
      refine ⟨?_, List.pairwise_cons.mpr h⟩
      intro r hr
      rcases List.mem_cons.mp hr with rfl | hr2
      · exact le_of_lt hlt
      · exact le_trans (h.1 r hr2) (le_of_lt hlt)
    case isFalse hge =>
      rw [List.pairwise_cons]
      refine ⟨?_, ih h.2⟩
      intro r hr
      rcases (mem_insertDesc r p qs).mp hr with rfl | hr2
      · omega
      · exact h.1 r hr2

theorem sortDesc_sorted (l : List (String × Nat)) :
    (sortDesc l).Pairwise fun a b => b.2 ≤ a.2 := by
  suffices hgen : ∀ acc : List (String × Nat),
      (acc.Pairwise fun a b => b.2 ≤ a.2) →
      ((l.foldl (fun ac p => insertDesc p ac) acc).Pairwise fun a b => b.2 ≤ a.2) from
    hgen [] (by simp)
  induction l with
  | nil => intro acc h; simpa using h
  | cons x xs ih => intro acc h; exact ih (insertDesc x acc) (insertDesc_sorted h)

theorem filter_insertDesc (p : String × Nat) (c : Nat) {acc : List (String × Nat)}
    (h : acc.Pairwise fun a b => b.2 ≤ a.2) :
    (insertDesc p acc).filter (fun q => q.2 = c) =
      acc.filter (fun q => q.2 = c) ++ if p.2 = c then [p] else [] := by
  induction acc with
  | nil =>
    simp only [insertDesc, List.filter_nil, List.nil_append, List.filter_cons,
      List.filter_nil]
    split <;> simp_all
  | cons q qs ih =>
    rw [List.pairwise_cons] at h
    simp only [insertDesc]
    split
    case isTrue hlt =>
      by_cases hpc : p.2 = c
      · have hnil : (q :: qs).filter (fun r => r.2 = c) = [] := by
          rw [List.filter_eq_nil_iff]
          intro r hr
          have hrq : r.2 ≤ q.2 := by
            rcases List.mem_cons.mp hr with rfl | hr2
            · exact le_refl _
            · exact h.1 r hr2
          simp only [decide_eq_true_eq]
          omega
        rw [List.filter_cons, if_pos (by simpa using hpc), hnil, if_pos hpc]
        simp
      · rw [List.filter_cons, if_neg (by simpa using hpc), if_neg hpc]
        simp
    case isFalse hge =>
      rw [List.filter_cons, List.filter_cons, ih h.2]
      split
      · simp
      · simp

theorem sortDesc_filter_stable (l : List (String × Nat)) (c : Nat) :
    (sortDesc l).filter (fun q => q.2 = c) = l.filter (fun q => q.2 = c) := by
  suffices hgen : ∀ acc : List (String × Nat),
      (acc.Pairwise fun a b => b.2 ≤ a.2) →
      (l.foldl (fun ac p => insertDesc p ac) acc).filter (fun q => q.2 = c) =
        acc.filter (fun q => q.2 = c) ++ l.filter (fun q => q.2 = c) by
    simpa using hgen [] (by simp)
  induction l with
  | nil => intro acc _; simp
  | cons x xs ih =>
    intro acc h
    rw [List.foldl_cons, ih (insertDesc x acc) (insertDesc_sorted h),
      filter_insertDesc x c h, List.filter_cons]
    split
    case isTrue hx => rw [if_pos (by simpa using hx)]; simp
    case isFalse hx => rw [if_neg (by simpa using hx)]; simp

theorem map_fst_bump (v : String) (acc : List (String × Nat)) :
    (bump v acc).map Prod.fst =
      if v ∈ acc.map Prod.fst then acc.map Prod.fst else acc.map Prod.fst ++ [v] := by
  induction acc with
  | nil => simp [bump]
  | cons p ps ih =>
    rcases p with ⟨k, n⟩
    by_cases hp : k = v
    · subst hp
      simp [bump]
    · simp only [bump, if_neg hp, List.map_cons, ih]
      by_cases hv : v ∈ ps.map Prod.fst
      · rw [if_pos hv, if_pos (by simp [hv])]
      · rw [if_neg hv, if_neg (by simp [hv, Ne.symm hp])]
        simp

theorem countsOf_keys_firstOccurrences (l : List String) :
    (countsOf l).map Prod.fst = firstOccurrences l := by
  suffices hgen : ∀ acc : List (String × Nat),
      (l.foldl (fun ac v => bump v ac) acc).map Prod.fst =
        l.foldl (fun ks v => if v ∈ ks then ks else ks ++ [v]) (acc.map Prod.fst) by
    simpa [countsOf, firstOccurrences] using hgen []
  induction l with
  | nil => intro acc; simp
  | cons x xs ih =>
    intro acc
    rw [List.foldl_cons, List.foldl_cons, ih (bump x acc), map_fst_bump]

theorem inferType_ne_null {v : String} (hv : v ≠ "") : inferType (some v) ≠ "null" := by
  simp only [inferType]
  rw [if_neg hv]
  repeat' split
  all_goals decide

theorem profileColumn_data_type (h : String) (cells : List (Option String)) (n : Nat) :
    (profileColumn h cells n).data_type = primaryType (colTypes cells) := rfl

/-- The non-null slots of `col_types` are exactly the classifier outputs on
the non-null values, in order. -/
theorem nonNullOf_colTypes (cells : List (Option String)) :
    nonNullOf (colTypes cells) = (colValues cells).map fun v => inferType (some v) := by
  induction cells with
  | nil => rfl
  | cons c cs ih =>
    cases c with
    | none =>
      have h1 : colTypes (none :: cs) = "null" :: colTypes cs := by
        simp [colTypes, cellIsNull]
      have h2 : colValues (none :: cs) = colValues cs := by
        simp [colValues]
      have h3 : nonNullOf ("null" :: colTypes cs) = nonNullOf (colTypes cs) := by
        simp [nonNullOf]
      rw [h1, h2, h3, ih]
    | some v =>
      by_cases hv : v = ""
      · subst hv
        have h1 : colTypes (some "" :: cs) = "null" :: colTypes cs := by
          simp [colTypes, cellIsNull]
        have h2 : colValues (some "" :: cs) = colValues cs := by
          simp [colValues]
        have h3 : nonNullOf ("null" :: colTypes cs) = nonNullOf (colTypes cs) := by
          simp [nonNullOf]
        rw [h1, h2, h3, ih]
      · have h1 : colTypes (some v :: cs) = inferType (some v) :: colTypes cs := by
          simp [colTypes, cellIsNull, hv]
        have h2 : colValues (some v :: cs) = v :: colValues cs := by
          simp [colValues, hv]
        have h3 : nonNullOf (inferType (some v) :: colTypes cs) =
            inferType (some v) :: nonNullOf (colTypes cs) := by
          simp [nonNullOf, inferType_ne_null hv]
        rw [h1, h2, h3, ih, List.map_cons]

theorem filterMap_parse_of_all_numeric (l : List String)
    (hc : ∀ v ∈ l, isNumericType (inferType (some v)) = true) :
    (l.filterMap fun v =>
        if isNumericType (inferType (some v)) then parseValue v else none) =
      l.filterMap parseValue := by
  induction l with
  | nil => rfl
  | cons x xs ih =>
    rw [List.filterMap_cons, List.filterMap_cons, if_pos (hc x (List.mem_cons_self x xs)),
      ih fun v hv => hc v (List.mem_cons_of_mem x hv)]

/-- A column resolved `"numeric"` has at least one non-null value and every
non-null value classified int/float. -/
theorem primaryType_eq_numeric_cases {cells : List (Option String)}
    (h : primaryType (colTypes cells) = "numeric") :
    nonNullOf (colTypes cells) ≠ [] ∧
      (nonNullOf (colTypes cells)).all isNumericType = true := by
  by_cases h1 : nonNullOf (colTypes cells) = []
  · rw [primaryType_null h1] at h
    exact absurd h (by decide)
  · by_cases h2 : (nonNullOf (colTypes cells)).all isNumericType = true
    · exact ⟨h1, h2⟩
    · by_cases h3 : 1 < (countsOf (nonNullOf (colTypes cells))).length
      · rw [primaryType_mixed h1 h2 h3] at h
        exact absurd h (by decide)
      · obtain ⟨t, hall, hpt⟩ := primaryType_single h1 h2 h3
        rw [hpt] at h
        obtain ⟨u, hu⟩ := List.exists_mem_of_ne_nil _ h1
        have hu2 : u ∈ colTypes cells := List.mem_of_mem_filter hu
        have hat := mem_colTypes_atomic hu2
        rw [hall u hu, h] at hat
        simp at hat

/-- For an all-numeric column, the retained numeric samples are exactly the
parse results of all its non-null values. -/
theorem numericSamples_of_numeric {cells : List (Option String)}
    (hall : (nonNullOf (colTypes cells)).all isNumericType = true) :
    numericSamples cells = (colValues cells).filterMap parseValue := by
  unfold numericSamples
  refine filterMap_parse_of_all_numeric _ fun v hv => ?_
  have hm : inferType (some v) ∈ nonNullOf (colTypes cells) := by
    rw [nonNullOf_colTypes]
    exact List.mem_map_of_mem _ hv
  exact List.all_eq_true.mp hall _ hm

theorem list_sum_map_getD {α : Type} (l : List α) (f : α → ℚ) (d : α) :
    (l.map f).sum = ∑ i ∈ Finset.range l.length, f (l.getD i d) := by
  induction l with
  | nil => simp
  | cons a t ih =>
    rw [List.map_cons, List.sum_cons, List.length_cons, Finset.sum_range_succ']
    simp only [List.getD_cons_succ, List.getD_cons_zero]
    rw [← ih]
    ring

theorem sum_zip_fst (l1 l2 : List ℚ) (hlen : l1.length = l2.length) (φ : ℚ → ℚ) :
    ((l1.zip l2).map fun p => φ p.1).sum = (l1.map φ).sum := by
  induction l1 generalizing l2 with
  | nil => simp
  | cons x xs ih =>
    cases l2 with
    | nil => simp at hlen
    | cons y ys =>
      rw [List.zip_cons_cons, List.map_cons, List.map_cons, List.sum_cons,
        List.sum_cons, ih ys (by simpa using hlen)]

theorem sum_zip_snd (l1 l2 : List ℚ) (hlen : l1.length = l2.length) (φ : ℚ → ℚ) :
    ((l1.zip l2).map fun p => φ p.2).sum = (l2.map φ).sum := by
  induction l1 generalizing l2 with
  | nil => cases l2 with
    | nil => simp
    | cons y ys => simp at hlen
  | cons x xs ih =>
    cases l2 with
    | nil => simp at hlen
    | cons y ys =>
      rw [List.zip_cons_cons, List.map_cons, List.map_cons, List.sum_cons,
        List.sum_cons, ih ys (by simpa using hlen)]

/-- Cauchy–Schwarz over a list of pairs. -/
theorem cauchy_schwarz_list (z : List (ℚ × ℚ)) (f g : ℚ × ℚ → ℚ) :
    ((z.map fun p => f p * g p).sum) ^ 2 ≤
      ((z.map fun p => f p ^ 2).sum) * ((z.map fun p => g p ^ 2).sum) := by
  rw [list_sum_map_getD z (fun p => f p * g p) (0, 0),
    list_sum_map_getD z (fun p => f p ^ 2) (0, 0),
    list_sum_map_getD z (fun p => g p ^ 2) (0, 0)]
  exact Finset.sum_mul_sq_le_sq_mul_sq (Finset.range z.length)
    (fun i => f (z.getD i (0, 0))) (fun i => g (z.getD i (0, 0)))

/-- The covariance numerator obeys Cauchy–Schwarz against the two variance
numerators. -/
theorem covSumQ_sq_le (l1 l2 : List ℚ) (hlen : l1.length = l2.length) :
    covSumQ l1 l2 ^ 2 ≤
      ((l1.map fun x => (x - meanQ l1) ^ 2).sum) *
        ((l2.map fun y => (y - meanQ l2) ^ 2).sum) := by
  have hcs := cauchy_schwarz_list (l1.zip l2)
    (fun p => p.1 - meanQ l1) (fun p => p.2 - meanQ l2)
  rw [sum_zip_fst l1 l2 hlen fun x => (x - meanQ l1) ^ 2,
    sum_zip_snd l1 l2 hlen fun y => (y - meanQ l2) ^ 2] at hcs
  exact hcs

/-- The sample covariance (over `n ≥ 2` aligned samples) is bounded by the
product of sample variances. -/
theorem cov_sq_le_var_mul {l1 l2 : List ℚ} {n : Nat} (h1 : l1.length = n)
    (h2 : l2.length = n) (hn : 2 ≤ n) :
    (covSumQ l1 l2 / ((n : ℚ) - 1)) ^ 2 ≤ varSamp l1 * varSamp l2 := by
  have hpos : (0 : ℚ) < (n : ℚ) - 1 := by
    have : (2 : ℚ) ≤ (n : ℚ) := by exact_mod_cast hn
    linarith
  have hcs := covSumQ_sq_le l1 l2 (h1.trans h2.symm)
  rw [varSamp, varSamp, h1, h2, div_pow, div_mul_div_comm, ← sq]
  exact div_le_div_of_nonneg_right hcs (by positivity) |>.trans_eq rfl

theorem corrMatrix_eq_pairEntries (headers : List String) (rows : List Row) :
    corrMatrix headers rows =
      pairEntries (corrOf rows) (ltPairs (numericCols headers rows)) := rfl

theorem mem_of_mem_ltPairs {α : Type} {a b : α} {l : List α}
    (h : (a, b) ∈ ltPairs l) : a ∈ l ∧ b ∈ l := by
  induction l with
  | nil => simp [ltPairs] at h
  | cons x xs ih =>
    simp only [ltPairs, List.mem_append, List.mem_map] at h
    rcases h with ⟨y, hy, heq⟩ | h2
    · obtain ⟨rfl, rfl⟩ := Prod.mk.injEq .. ▸ heq
      exact ⟨List.mem_cons_self x xs, List.mem_cons_of_mem x hy⟩
    · exact ⟨List.mem_cons_of_mem x (ih h2).1, List.mem_cons_of_mem x (ih h2).2⟩

theorem ne_of_mem_ltPairs {α : Type} {a b : α} {l : List α} (hnd : l.Nodup)
    (h : (a, b) ∈ ltPairs l) : a ≠ b := by
  induction l with
  | nil => simp [ltPairs] at h
  | cons x xs ih =>
    rw [List.nodup_cons] at hnd
    simp only [ltPairs, List.mem_append, List.mem_map] at h
    rcases h with ⟨y, hy, heq⟩ | h2
    · obtain ⟨rfl, rfl⟩ := Prod.mk.injEq .. ▸ heq
      intro hab
      exact hnd.1 (hab ▸ hy)
    · exact ih hnd.2 h2

theorem ltPairs_total {α : Type} {a b : α} {l : List α} (ha : a ∈ l) (hb : b ∈ l)
    (hne : a ≠ b) : (a, b) ∈ ltPairs l ∨ (b, a) ∈ ltPairs l := by
  induction l with
  | nil => simp at ha
  | cons x xs ih =>
    rcases List.mem_cons.mp ha with rfl | ha2
    · have hb2 : b ∈ xs := by
        rcases List.mem_cons.mp hb with rfl | hb2
        · exact absurd rfl hne
        · exact hb2
      left
      simp only [ltPairs, List.mem_append, List.mem_map]
      exact Or.inl ⟨b, hb2, rfl⟩
    · rcases List.mem_cons.mp hb with rfl | hb2
      · right
        simp only [ltPairs, List.mem_append, List.mem_map]
        exact Or.inl ⟨a, ha2, rfl⟩
      · rcases ih ha2 hb2 with h | h
        · left
          simp only [ltPairs, List.mem_append]
          exact Or.inr h
        · right
          simp only [ltPairs, List.mem_append]
          exact Or.inr h

theorem not_both_ltPairs {α : Type} {a b : α} {l : List α} (hnd : l.Nodup)
    (h1 : (a, b) ∈ ltPairs l) (h2 : (b, a) ∈ ltPairs l) : False := by
  induction l with
  | nil => simp [ltPairs] at h1
  | cons x xs ih =>
    rw [List.nodup_cons] at hnd
    simp only [ltPairs, List.mem_append, List.mem_map] at h1 h2
    rcases h1 with ⟨y, hy, hey⟩ | h1r
    · obtain ⟨rfl, rfl⟩ := Prod.mk.injEq .. ▸ hey
      rcases h2 with ⟨z, hz, hez⟩ | h2r
      · have hxy : x = y := (Prod.mk.injEq .. ▸ hez).1
        exact hnd.1 (by rw [hxy]; exact hy)
      · exact hnd.1 ((mem_of_mem_ltPairs h2r).2)
    · rcases h2 with ⟨z, hz, hez⟩ | h2r
      · have hxb : x = b := (Prod.mk.injEq .. ▸ hez).1
        exact hnd.1 (by rw [hxb]; exact (mem_of_mem_ltPairs h1r).2)
      · exact ih hnd.2 h1r h2r

theorem pair_eq_self_iff {α : Type} (p : α × α) (a b : α) :
    ((p.1, p.2) = (a, b)) ↔ p = (a, b) := by
  constructor
  · intro hh
    exact (Prod.mk.eta (p := p)).symm.trans hh
  · rintro rfl
    rfl

theorem pair_eq_swap_iff {α : Type} (p : α × α) (a b : α) :
    ((p.2, p.1) = (a, b)) ↔ p = (b, a) := by
  constructor
  · intro hh
    have h1 : p.2 = a := (Prod.mk.injEq .. ▸ hh).1
    have h2 : p.1 = b := (Prod.mk.injEq .. ▸ hh).2
    exact Prod.ext_iff.mpr ⟨h2, h1⟩
  · rintro rfl
    rfl

theorem findEntry_pairEntries_none (g : String × String → Option (ℚ × ℚ × ℚ))
    {a b : String} {ps : List (String × String)}
    (h : ∀ p ∈ ps, p ≠ (a, b) ∧ p ≠ (b, a)) :
    findEntry (a, b) (pairEntries g ps) = none := by
  induction ps with
  | nil => rfl
  | cons p ts ih =>
    have hp := h p (List.mem_cons_self p ts)
    have hlist : pairEntries g (p :: ts) =
        ((p.1, p.2), g p) :: ((p.2, p.1), g p) :: pairEntries g ts := by
      simp [pairEntries]
    rw [hlist]
    simp only [findEntry]
    rw [if_neg (mt (pair_eq_self_iff p a b).mp hp.1),
      if_neg (mt (pair_eq_swap_iff p a b).mp hp.2)]
    exact ih fun q hq => h q (List.mem_cons_of_mem p hq)

theorem findEntry_pairEntries_found (g : String × String → Option (ℚ × ℚ × ℚ))
    {a b : String} {ps : List (String × String)}
    (hmem : (a, b) ∈ ps) (hnr : (b, a) ∉ ps) :
    findEntry (a, b) (pairEntries g ps) = some (g (a, b)) := by
  induction ps with
  | nil => simp at hmem
  | cons p ts ih =>
    have hlist : pairEntries g (p :: ts) =
        ((p.1, p.2), g p) :: ((p.2, p.1), g p) :: pairEntries g ts := by
      simp [pairEntries]
    by_cases hpe : p = (a, b)
    · subst hpe
      rw [hlist]
      simp only [findEntry]
      simp
    · have hp2 : p ≠ (b, a) := fun hh => hnr (hh ▸ List.mem_cons_self p ts)
      rw [hlist]
      simp only [findEntry]
      rw [if_neg (mt (pair_eq_self_iff p a b).mp hpe),
        if_neg (mt (pair_eq_swap_iff p a b).mp hp2)]
      refine ih ?_ fun hh => hnr (List.mem_cons_of_mem p hh)
      rcases List.mem_cons.mp hmem with h | h
      · exact absurd h.symm hpe
      · exact h

theorem findEntry_pairEntries_found_rev (g : String × String → Option (ℚ × ℚ × ℚ))
    {a b : String} {ps : List (String × String)}
    (hmem : (b, a) ∈ ps) (hnr : (a, b) ∉ ps) :
    findEntry (a, b) (pairEntries g ps) = some (g (b, a)) := by
  induction ps with
  | nil => simp at hmem
  | cons p ts ih =>
    have hlist : pairEntries g (p :: ts) =
        ((p.1, p.2), g p) :: ((p.2, p.1), g p) :: pairEntries g ts := by
      simp [pairEntries]
    by_cases hpe : p = (b, a)
    · subst hpe
      have hne : ((b, a) : String × String) ≠ (a, b) := fun hh => hnr (hh ▸ hmem)
      rw [hlist]
      simp only [findEntry]
      rw [if_neg (mt (pair_eq_self_iff (b, a) a b).mp hne)]
      simp
    · have hp2 : p ≠ (a, b) := fun hh => hnr (hh ▸ List.mem_cons_self p ts)
      rw [hlist]
      simp only [findEntry]
      rw [if_neg (mt (pair_eq_self_iff p a b).mp hp2),
        if_neg (mt (pair_eq_swap_iff p a b).mp hpe)]
      refine ih ?_ fun hh => hnr (List.mem_cons_of_mem p hh)
      rcases List.mem_cons.mp hmem with h | h
      · exact absurd h.symm hpe
      · exact h

theorem corrPair_some_inv {xs ys : List ℚ} {c vx vy : ℚ}
    (h : corrPair xs ys = some (c, vx, vy)) :
    2 ≤ min xs.length ys.length ∧
      c = covSumQ (xs.take (min xs.length ys.length)) (ys.take (min xs.length ys.length)) /
        (((min xs.length ys.length : Nat) : ℚ) - 1) ∧
      vx = varSamp (xs.take (min xs.length ys.length)) ∧
      vy = varSamp (ys.take (min xs.length ys.length)) ∧
      0 < vx ∧ 0 < vy := by
  simp only [corrPair] at h
  split at h
  case isTrue hlt => exact absurd h (by simp)
  case isFalse hlt =>
    split at h
    case isTrue hcond =>
      injection h with h2
      rw [Prod.mk.injEq, Prod.mk.injEq] at h2
      obtain ⟨hc2, hvx2, hvy2⟩ := h2
      subst hc2
      subst hvx2
      subst hvy2
      exact ⟨by omega, rfl, rfl, rfl, hcond.1, hcond.2⟩
    case isFalse => exact absurd h (by simp)

/-- Any correlation value the code can emit lies in `[-1, 1]`: the
Cauchy–Schwarz bound for `cov / (stdev_x * stdev_y)`. -/
theorem corrPair_value_bound {xs ys : List ℚ} {c vx vy : ℚ}
    (h : corrPair xs ys = some (c, vx, vy)) :
    -1 ≤ (c : ℝ) / (Real.sqrt (vx : ℝ) * Real.sqrt (vy : ℝ)) ∧
      (c : ℝ) / (Real.sqrt (vx : ℝ) * Real.sqrt (vy : ℝ)) ≤ 1 := by
  obtain ⟨hn, hc, hvx, hvy, hpx, hpy⟩ := corrPair_some_inv h
  have hlx : (xs.take (min xs.length ys.length)).length = min xs.length ys.length := by
    rw [List.length_take]; omega
  have hly : (ys.take (min xs.length ys.length)).length = min xs.length ys.length := by
    rw [List.length_take]; omega
  have hq : c ^ 2 ≤ vx * vy := by
    rw [hc, hvx, hvy]
    exact cov_sq_le_var_mul hlx hly hn
  have hxnn : (0 : ℝ) ≤ (vx : ℝ) := by exact_mod_cast hpx.le
  have hynn : (0 : ℝ) ≤ (vy : ℝ) := by exact_mod_cast hpy.le
  have hR : (c : ℝ) ^ 2 ≤ (vx : ℝ) * (vy : ℝ) := by exact_mod_cast hq
  have hsq : Real.sqrt (vx : ℝ) * Real.sqrt (vy : ℝ) = Real.sqrt ((vx : ℝ) * (vy : ℝ)) :=
    (Real.sqrt_mul hxnn _).symm
  have hpos : 0 < Real.sqrt ((vx : ℝ) * (vy : ℝ)) := by
    apply Real.sqrt_pos.mpr
    have h1 : (0 : ℝ) < (vx : ℝ) := by exact_mod_cast hpx
    have h2 : (0 : ℝ) < (vy : ℝ) := by exact_mod_cast hpy
    positivity
  have habs : |(c : ℝ)| ≤ Real.sqrt ((vx : ℝ) * (vy : ℝ)) := by
    calc |(c : ℝ)| = Real.sqrt ((c : ℝ) ^ 2) := (Real.sqrt_sq_eq_abs _).symm
    _ ≤ Real.sqrt ((vx : ℝ) * (vy : ℝ)) := Real.sqrt_le_sqrt hR
  have hfin : |(c : ℝ) / (Real.sqrt (vx : ℝ) * Real.sqrt (vy : ℝ))| ≤ 1 := by
    rw [hsq, abs_div, abs_of_nonneg (Real.sqrt_nonneg _)]
    exact (div_le_one hpos).mpr habs
  exact abs_le.mp hfin

/-! ### Claim theorems -/

/-- Claim C2: the type classifier is total, with precedence
null → int → float → bool → string on the stripped value; `"123"` is int,
`"123.45"` float, `""` null, `"hello"` string, `"1"`/`"0"` int, and the bool
branch can only fire for tokens that parse as neither int nor float (in
particular never for `"1"`/`"0"`). -/
theorem claim_C2 :
    (inferType none = "null") ∧
    (inferType (some "") = "null") ∧
    (∀ v : String, v ≠ "" → isIntToken (pyStrip v) = true → inferType (some v) = "int") ∧
    (∀ v : String, v ≠ "" → isIntToken (pyStrip v) = false →
      isFloatToken (pyStrip v) = true → inferType (some v) = "float") ∧
    (∀ v : String, v ≠ "" → isIntToken (pyStrip v) = false →
      isFloatToken (pyStrip v) = false →
      pyLower (pyStrip v) ∈ (["true", "false", "yes", "no", "1", "0"] : List String) →
      inferType (some v) = "bool") ∧
    (∀ v : String, v ≠ "" → isIntToken (pyStrip v) = false →
      isFloatToken (pyStrip v) = false →
      pyLower (pyStrip v) ∉ (["true", "false", "yes", "no", "1", "0"] : List String) →
      inferType (some v) = "string") ∧
    (∀ v : Option String,
      inferType v ∈ (["null", "int", "float", "bool", "string"] : List String)) ∧
    inferType (some "123") = "int" ∧
    inferType (some "123.45") = "float" ∧
    inferType (some "hello") = "string" ∧
    inferType (some "1") = "int" ∧
    inferType (some "0") = "int" ∧
    (∀ v : String, inferType (some v) = "bool" →
      isIntToken (pyStrip v) = false ∧ isFloatToken (pyStrip v) = false ∧
      pyStrip v ≠ "1" ∧ pyStrip v ≠ "0") := by
  refine ⟨rfl, rfl, ?_, ?_, ?_, ?_, inferType_mem_atomic, by decide, by decide,
    by decide, by decide, by decide, ?_⟩
  · intro v hv hint; simp [inferType, hv, hint]
  · intro v hv hint hfl; simp [inferType, hv, hint, hfl]
  · intro v hv hint hfl hb; simp [inferType, hv, hint, hfl, hb]
  · intro v hv hint hfl hb; simp [inferType, hv, hint, hfl, hb]
  · intro v hb
    by_cases hv : v = ""
    · simp [inferType, hv] at hb
    · by_cases hint : isIntToken (pyStrip v)
      · simp [inferType, hv, hint] at hb
      · by_cases hfl : isFloatToken (pyStrip v)
        · simp [inferType, hv, hint, hfl] at hb
        · refine ⟨by simpa using hint, by simpa using hfl, ?_, ?_⟩
          · intro h1; apply hint; rw [h1]; decide
          · intro h0; apply hint; rw [h0]; decide

/-- Claim C2 witness: the int clause applied at `" 42 "` (strip matters). -/
theorem claim_C2_witness : inferType (some " 42 ") = "int" :=
  claim_C2.2.2.1 " 42 " (by decide) (by decide)

/-- Claim C7: a zero-row stream is not an error: one profile per header is
still emitted, with `data_type = "unknown"`, all counts zero,
`null_percentage` zero, empty `most_frequent`, and no numeric fields. -/
theorem claim_C7 (headers : List String) (rows : List Row) (hr : rows = []) :
    (profileRun headers rows).length = headers.length ∧
    ∀ e ∈ profileRun headers rows,
      e.2.data_type = "unknown" ∧ e.2.total_rows = 0 ∧ e.2.null_count = 0 ∧
      e.2.duplicate_rows = 0 ∧ e.2.distinct_values = 0 ∧
      e.2.null_percentage = 0 ∧ e.2.most_frequent = [] ∧
      e.2.min_value = none ∧ e.2.max_value = none ∧ e.2.mean = none ∧
      e.2.median = none ∧ e.2.std_dev_sq = none := by
  subst hr
  constructor
  · simp [profileRun]
  · intro e he
    unfold profileRun at he
    rw [if_pos (show ([] : List Row).length = 0 from rfl)] at he
    rw [List.mem_map] at he
    obtain ⟨h, -, he2⟩ := he
    subst he2
    simp [emptyProfile]

/-- Claim C7 witness. -/
theorem claim_C7_witness : (profileRun ["a"] ([] : List Row)).length = 1 :=
  (claim_C7 ["a"] [] rfl).1

/-- Claim C8: the constructor rejects every non-`.csv` path outright, even
though `profile()`'s reader dispatch decodes `.json`/`.parquet`/`.pq`: an
existing JSON file can never be profiled. -/
theorem claim_C8_code_bug :
    initCheck "data.json" true = Except.error "File must be a CSV file (.csv)" ∧
    profileExtOk ".json" = true ∧
    profileExtOk ".parquet" = true ∧
    initCheck "data.csv" true = Except.ok () :=
  ⟨rfl, rfl, rfl, rfl⟩

/-- Claim C1 counterexample: for the column `["1", "hello"]` the observed
types are int and string — not all numeric, and only ONE non-numeric type
(string) appears — so the claim as stated demands "the single observed
type", yet two distinct types were observed and the code resolves `mixed`. -/
theorem claim_C1_counterexample : ¬ claimC1Stmt := by
  intro hcl
  obtain ⟨t, hall, -⟩ :=
    ((hcl [some "1", some "hello"]).2 (by decide)).2.2 (by decide) (by decide)
  have h1 : "int" = t := hall "int" (by decide)
  have h2 : "string" = t := hall "string" (by decide)
  rw [← h1] at h2
  exact absurd h2 (by decide)

/-- Claim C1 amended: `null` with no non-null values; `numeric` when all
non-null observed types are int/float; `mixed` when the values are not all
numeric and more than one DISTINCT type (not: non-numeric type) appears;
otherwise the single observed type — and never `unknown` on actual cells. -/
theorem claim_C1_amended (cells : List (Option String)) :
    (nonNullOf (colTypes cells) = [] → primaryType (colTypes cells) = "null") ∧
    (nonNullOf (colTypes cells) ≠ [] →
      (nonNullOf (colTypes cells)).all isNumericType = true →
      primaryType (colTypes cells) = "numeric") ∧
    (nonNullOf (colTypes cells) ≠ [] →
      ¬ (nonNullOf (colTypes cells)).all isNumericType = true →
      1 < (countsOf (nonNullOf (colTypes cells))).length →
      primaryType (colTypes cells) = "mixed") ∧
    (nonNullOf (colTypes cells) ≠ [] →
      ¬ (nonNullOf (colTypes cells)).all isNumericType = true →
      ¬ 1 < (countsOf (nonNullOf (colTypes cells))).length →
      ∃ t, (∀ u ∈ nonNullOf (colTypes cells), u = t) ∧
        primaryType (colTypes cells) = t) ∧
    primaryType (colTypes cells) ≠ "unknown" := by
  refine ⟨fun h => primaryType_null h, fun h1 h2 => primaryType_numeric h1 h2,
    fun h1 h2 h3 => primaryType_mixed h1 h2 h3,
    fun h1 h2 h3 => primaryType_single h1 h2 h3, ?_⟩
  by_cases h1 : nonNullOf (colTypes cells) = []
  · rw [primaryType_null h1]; decide
  · by_cases h2 : (nonNullOf (colTypes cells)).all isNumericType = true
    · rw [primaryType_numeric h1 h2]; decide
    · by_cases h3 : 1 < (countsOf (nonNullOf (colTypes cells))).length
      · rw [primaryType_mixed h1 h2 h3]; decide
      · obtain ⟨t, hall, hpt⟩ := primaryType_single h1 h2 h3
        rw [hpt]
        obtain ⟨u, hu⟩ := List.exists_mem_of_ne_nil _ h1
        have hut := hall u hu
        subst hut
        have humem : u ∈ colTypes cells :=
          List.mem_of_mem_filter hu
        have := mem_colTypes_atomic humem
        intro hunk
        rw [hunk] at this
        simp at this

/-- Claim C1 witness for the amended claim: the column `["1", "hello"]`
(not all numeric, two distinct types) resolves to `mixed`. -/
theorem claim_C1_amended_witness :
    primaryType (colTypes [some "1", some "hello"]) = "mixed" :=
  (claim_C1_amended [some "1", some "hello"]).2.2.1 (by decide) (by decide) (by decide)

/-- Claim C10: no resolved column type is ever the bare `"int"` or
`"float"`: an all-int (or all-float) column resolves to `"numeric"`, a
zero-row run to `"unknown"`. -/
theorem claim_C10 (headers : List String) (rows : List Row) (h : String)
    (p : ColumnProfile) (hmem : (h, p) ∈ profileRun headers rows) :
    p.data_type ≠ "int" ∧ p.data_type ≠ "float" := by
  unfold profileRun at hmem
  split at hmem
  · rw [List.mem_map] at hmem
    obtain ⟨a, -, ha⟩ := hmem
    have hp : emptyProfile a = p := (Prod.ext_iff.mp ha).2
    have hdt : p.data_type = "unknown" := by rw [← hp]; rfl
    rw [hdt]
    exact ⟨by decide, by decide⟩
  · rw [List.mem_map] at hmem
    obtain ⟨a, -, ha⟩ := hmem
    have hp : profileColumn a (colCells rows a) rows.length = p :=
      (Prod.ext_iff.mp ha).2
    have hdt : p.data_type = primaryType (colTypes (colCells rows a)) := by
      rw [← hp]; rfl
    rw [hdt]
    exact primaryType_ne_int_float _

/-- Claim C10 witness: a one-row all-int column resolves away from `int`. -/
theorem claim_C10_witness :
    (profileColumn "a" (colCells [[("a", "1")]] "a") 1).data_type ≠ "int" :=
  (claim_C10 ["a"] [[("a", "1")]] "a" _ (by simp [profileRun])).1

/-- Claim C6: for int/float/numeric-resolved columns the five numeric fields
are present exactly when at least one numeric sample was retained; the
standard deviation is 0.0 for exactly one sample and (as its square here,
see the header comment) the sample variance with `n − 1` denominator for two
or more; all five fields are absent for zero samples. -/
theorem claim_C6 (h : String) (cells : List (Option String)) (n : Nat)
    (hty : (profileColumn h cells n).data_type = "int" ∨
      (profileColumn h cells n).data_type = "float" ∨
      (profileColumn h cells n).data_type = "numeric") :
    (((profileColumn h cells n).min_value.isSome ∧
      (profileColumn h cells n).max_value.isSome ∧
      (profileColumn h cells n).mean.isSome ∧
      (profileColumn h cells n).median.isSome ∧
      (profileColumn h cells n).std_dev_sq.isSome) ↔
      0 < (numericSamples cells).length) ∧
    ((numericSamples cells).length = 0 →
      (profileColumn h cells n).min_value = none ∧
      (profileColumn h cells n).max_value = none ∧
      (profileColumn h cells n).mean = none ∧
      (profileColumn h cells n).median = none ∧
      (profileColumn h cells n).std_dev_sq = none) ∧
    ((numericSamples cells).length = 1 →
      (profileColumn h cells n).std_dev_sq = some 0) ∧
    (2 ≤ (numericSamples cells).length →
      (profileColumn h cells n).std_dev_sq =
        some (varSamp ((colValues cells).filterMap parseValue))) := by
  have hpt : primaryType (colTypes cells) = "numeric" := by
    rw [profileColumn_data_type] at hty
    rcases hty with hti | htf | htn
    · exact absurd hti (primaryType_ne_int_float _).1
    · exact absurd htf (primaryType_ne_int_float _).2
    · exact htn
  have hall := (primaryType_eq_numeric_cases hpt).2
  have hns : numericSamples cells = (colValues cells).filterMap parseValue :=
    numericSamples_of_numeric hall
  have hsv : statValues cells = (colValues cells).filterMap parseValue := by
    rw [statValues, if_pos (Or.inr hpt)]
  have hminf : (profileColumn h cells n).min_value =
      if statValues cells ≠ [] then listMin (statValues cells) else none := rfl
  have hmaxf : (profileColumn h cells n).max_value =
      if statValues cells ≠ [] then listMax (statValues cells) else none := rfl
  have hmeanf : (profileColumn h cells n).mean =
      if statValues cells ≠ [] then some (meanQ (statValues cells)) else none := rfl
  have hmedf : (profileColumn h cells n).median =
      if statValues cells ≠ [] then some (medianQ (statValues cells)) else none := rfl
  have hstdf : (profileColumn h cells n).std_dev_sq =
      if statValues cells ≠ [] then
        if 1 < (statValues cells).length then some (varSamp (statValues cells)) else some 0
      else none := rfl
  rw [hminf, hmaxf, hmeanf, hmedf, hstdf, hsv, hns]
  by_cases hnv : (colValues cells).filterMap parseValue = []
  · rw [if_neg (fun hc => hc hnv), if_neg (fun hc => hc hnv), if_neg (fun hc => hc hnv),
      if_neg (fun hc => hc hnv), if_neg (fun hc => hc hnv)]
    refine ⟨?_, fun _ => ⟨rfl, rfl, rfl, rfl, rfl⟩, fun h1 => ?_, fun h2 => ?_⟩
    · simp [hnv]
    · rw [hnv] at h1; simp at h1
    · rw [hnv] at h2; simp at h2
  · rw [if_pos hnv, if_pos hnv, if_pos hnv, if_pos hnv, if_pos hnv]
    have hpos : 0 < ((colValues cells).filterMap parseValue).length :=
      List.length_pos.mpr hnv
    refine ⟨?_, fun h0 => absurd (h0 ▸ hpos) (by omega), fun h1 => ?_, fun h2 => ?_⟩
    · cases hl : listMin ((colValues cells).filterMap parseValue) with
      | none =>
        cases hc : (colValues cells).filterMap parseValue with
        | nil => exact absurd hc hnv
        | cons x xs => rw [hc] at hl; exact absurd hl (by simp [listMin])
      | some q =>
        simp only [hl, Option.isSome_some]
        constructor
        · intro _; exact hpos
        · intro _
          refine ⟨trivial, ?_, trivial, trivial, ?_⟩
          · cases hc : (colValues cells).filterMap parseValue with
            | nil => exact absurd hc hnv
            | cons x xs => simp [listMax]
          · split <;> simp
    · rw [if_neg (by omega)]
    · rw [if_pos (by omega)]

/-- Claim C6 witness: the two-sample column `["1", "2"]` (resolved numeric)
has `std_dev_sq` equal to the sample variance of `[1, 2]`. -/
theorem claim_C6_witness :
    (profileColumn "a" [some "1", some "2"] 2).std_dev_sq =
      some (varSamp ((colValues [some "1", some "2"]).filterMap parseValue)) :=
  (claim_C6 "a" [some "1", some "2"] 2 (Or.inr (Or.inr (by decide)))).2.2.2 (by decide)

/-- Claim C5: `most_frequent` is `most_common(5)` of the per-column value
counter: at most 5 pairs, a prefix of a stable count-descending sort of the
counter; counts are non-increasing, equal-count pairs keep the counter's
order (the filter clause), and the counter's key order is exactly the order
in which values are first encountered in the row stream. -/
theorem claim_C5 (h : String) (cells : List (Option String)) (n : Nat) :
    (profileColumn h cells n).most_frequent =
      (sortDesc (countsOf (colValues cells))).take 5 ∧
    (profileColumn h cells n).most_frequent.length ≤ 5 ∧
    ((profileColumn h cells n).most_frequent.Pairwise fun p q => q.2 ≤ p.2) ∧
    (∀ c : Nat, (sortDesc (countsOf (colValues cells))).filter (fun q => q.2 = c) =
      (countsOf (colValues cells)).filter (fun q => q.2 = c)) ∧
    (countsOf (colValues cells)).map Prod.fst = firstOccurrences (colValues cells) := by
  have hmf : (profileColumn h cells n).most_frequent =
      (sortDesc (countsOf (colValues cells))).take 5 := rfl
  refine ⟨hmf, ?_, ?_, fun c => sortDesc_filter_stable _ c,
    countsOf_keys_firstOccurrences _⟩
  · rw [hmf]
    simp
  · rw [hmf]
    exact (sortDesc_sorted _).sublist (List.take_sublist 5 _)

/-- Claim C3: the correlation matrix has an entry exactly for each unordered
pair of distinct columns with ≥ 2 retained numeric samples; the stored value
is `corrPair` of the two sample lists (in one of the two orders), which
truncates both to the shorter length preserving order, divides the
covariance by `n − 1`, records the two sample variances whose square roots
are the code's standard deviations, and is absent (`none`) whenever either
truncated sample has zero variance. -/
theorem claim_C3 (headers : List String) (rows : List Row) (hnd : headers.Nodup) :
    (∀ g : String, g ∈ numericCols headers rows ↔
      g ∈ headers ∧ 2 ≤ (numericSamples (colCells rows g)).length) ∧
    (∀ a b : String,
      (findEntry (a, b) (corrMatrix headers rows)).isSome = true ↔
        a ∈ numericCols headers rows ∧ b ∈ numericCols headers rows ∧ a ≠ b) ∧
    (∀ a b : String, ∀ v, findEntry (a, b) (corrMatrix headers rows) = some v →
      v = corrPair (numericSamples (colCells rows a)) (numericSamples (colCells rows b)) ∨
      v = corrPair (numericSamples (colCells rows b)) (numericSamples (colCells rows a))) ∧
    (∀ xs ys : List ℚ,
      (varSamp (xs.take (min xs.length ys.length)) = 0 ∨
        varSamp (ys.take (min xs.length ys.length)) = 0) →
      corrPair xs ys = none) ∧
    (∀ xs ys : List ℚ, 2 ≤ min xs.length ys.length →
      0 < varSamp (xs.take (min xs.length ys.length)) →
      0 < varSamp (ys.take (min xs.length ys.length)) →
      corrPair xs ys = some
        (covSumQ (xs.take (min xs.length ys.length)) (ys.take (min xs.length ys.length)) /
            (((min xs.length ys.length : Nat) : ℚ) - 1),
          varSamp (xs.take (min xs.length ys.length)),
          varSamp (ys.take (min xs.length ys.length)))) := by
  have hndnc : (numericCols headers rows).Nodup := hnd.filter _
  refine ⟨?_, ?_, ?_, ?_, ?_⟩
  · intro g
    rw [numericCols, List.mem_filter]
    simp only [decide_eq_true_eq]
    exact and_congr Iff.rfl (by omega)
  · intro a b
    rw [corrMatrix_eq_pairEntries]
    constructor
    · intro hs
      by_contra hc
      have hnone : findEntry (a, b)
          (pairEntries (corrOf rows) (ltPairs (numericCols headers rows))) = none := by
        apply findEntry_pairEntries_none
        intro p hp
        constructor
        · rintro rfl
          exact hc ⟨(mem_of_mem_ltPairs hp).1, (mem_of_mem_ltPairs hp).2,
            ne_of_mem_ltPairs hndnc hp⟩
        · rintro rfl
          exact hc ⟨(mem_of_mem_ltPairs hp).2, (mem_of_mem_ltPairs hp).1,
            (ne_of_mem_ltPairs hndnc hp).symm⟩
      rw [hnone] at hs
      exact absurd hs (by simp)
    · rintro ⟨ha, hb, hne⟩
      rcases ltPairs_total ha hb hne with hab | hba
      · rw [findEntry_pairEntries_found (corrOf rows) hab
          fun hh => not_both_ltPairs hndnc hab hh]
        rfl
      · rw [findEntry_pairEntries_found_rev (corrOf rows) hba
          fun hh => not_both_ltPairs hndnc hh hba]
        rfl
  · intro a b v hv
    rw [corrMatrix_eq_pairEntries] at hv
    by_cases hab : (a, b) ∈ ltPairs (numericCols headers rows)
    · rw [findEntry_pairEntries_found (corrOf rows) hab
        fun hh => not_both_ltPairs hndnc hab hh] at hv
      left
      exact (Option.some.injEq .. ▸ hv).symm
    · by_cases hba : (b, a) ∈ ltPairs (numericCols headers rows)
      · rw [findEntry_pairEntries_found_rev (corrOf rows) hba hab] at hv
        right
        exact (Option.some.injEq .. ▸ hv).symm
      · rw [findEntry_pairEntries_none (corrOf rows) ?_] at hv
        · exact absurd hv (by simp)
        · intro p hp
          exact ⟨fun hh => hab (hh ▸ hp), fun hh => hba (hh ▸ hp)⟩
  · intro xs ys hv
    simp only [corrPair]
    split
    · rfl
    · rw [if_neg]
      rintro ⟨h1, h2⟩
      rcases hv with h | h
      · rw [h] at h1; exact lt_irrefl 0 h1
      · rw [h] at h2; exact lt_irrefl 0 h2
  · intro xs ys hn h1 h2
    simp only [corrPair]
    rw [if_neg (by omega), if_pos ⟨h1, h2⟩]

/-- Claim C3 witness: on the 3-row dataset with columns `x = [1,2,3]` and
`y = [1,2,4]` the matrix has an entry for `(x, y)`. -/
theorem claim_C3_witness :
    (findEntry ("x", "y") (corrMatrix ["x", "y"]
      [[("x", "1"), ("y", "1")], [("x", "2"), ("y", "2")],
        [("x", "3"), ("y", "4")]])).isSome = true :=
  ((claim_C3 ["x", "y"]
      [[("x", "1"), ("y", "1")], [("x", "2"), ("y", "2")], [("x", "3"), ("y", "4")]]
      (by decide)).2.1 "x" "y").mpr ⟨by decide, by decide, by decide⟩

/-- Claim C4: the matrix is symmetric — the entries under `(a, b)` and
`(b, a)` coincide — and every present value, i.e. the code's
`cov / (stdev_x * stdev_y)` read off the stored triple, lies in `[-1, 1]`. -/
theorem claim_C4 (headers : List String) (rows : List Row) (hnd : headers.Nodup)
    (a b : String) :
    findEntry (a, b) (corrMatrix headers rows) =
      findEntry (b, a) (corrMatrix headers rows) ∧
    (∀ c vx vy : ℚ,
      findEntry (a, b) (corrMatrix headers rows) = some (some (c, vx, vy)) →
      -1 ≤ (c : ℝ) / (Real.sqrt (vx : ℝ) * Real.sqrt (vy : ℝ)) ∧
        (c : ℝ) / (Real.sqrt (vx : ℝ) * Real.sqrt (vy : ℝ)) ≤ 1) := by
  have hndnc : (numericCols headers rows).Nodup := hnd.filter _
  constructor
  · by_cases heq : a = b
    · subst heq
      rfl
    · rw [corrMatrix_eq_pairEntries]
      by_cases hab : (a, b) ∈ ltPairs (numericCols headers rows)
      · have hnr : (b, a) ∉ ltPairs (numericCols headers rows) :=
          fun hh => not_both_ltPairs hndnc hab hh
        rw [findEntry_pairEntries_found (corrOf rows) hab hnr,
          findEntry_pairEntries_found_rev (corrOf rows) hab hnr]
      · by_cases hba : (b, a) ∈ ltPairs (numericCols headers rows)
        · rw [findEntry_pairEntries_found_rev (corrOf rows) hba hab,
            findEntry_pairEntries_found (corrOf rows) hba hab]
        · rw [findEntry_pairEntries_none (corrOf rows)
            fun p hp => ⟨fun hh => hab (hh ▸ hp), fun hh => hba (hh ▸ hp)⟩,
            findEntry_pairEntries_none (corrOf rows)
            fun p hp => ⟨fun hh => hba (hh ▸ hp), fun hh => hab (hh ▸ hp)⟩]
  · intro c vx vy hv
    rw [corrMatrix_eq_pairEntries] at hv
    by_cases hab : (a, b) ∈ ltPairs (numericCols headers rows)
    · rw [findEntry_pairEntries_found (corrOf rows) hab
        fun hh => not_both_ltPairs hndnc hab hh] at hv
      injection hv with hv2
      have hv3 : corrPair (numericSamples (colCells rows a))
          (numericSamples (colCells rows b)) = some (c, vx, vy) := hv2
      exact corrPair_value_bound hv3
    · by_cases hba : (b, a) ∈ ltPairs (numericCols headers rows)
      · rw [findEntry_pairEntries_found_rev (corrOf rows) hba hab] at hv
        injection hv with hv2
        have hv3 : corrPair (numericSamples (colCells rows b))
            (numericSamples (colCells rows a)) = some (c, vx, vy) := hv2
        exact corrPair_value_bound hv3
      · rw [findEntry_pairEntries_none (corrOf rows)
          fun p hp => ⟨fun hh => hab (hh ▸ hp), fun hh => hba (hh ▸ hp)⟩] at hv
        exact absurd hv (by simp)

/-- Claim C4 witness: the matrix entries for `(x, y)` and `(y, x)` agree on
the 3-row dataset with columns `x = [1,2,3]`, `y = [1,2,4]`. -/
theorem claim_C4_witness :
    findEntry ("x", "y") (corrMatrix ["x", "y"]
      [[("x", "1"), ("y", "1")], [("x", "2"), ("y", "2")], [("x", "3"), ("y", "4")]]) =
    findEntry ("y", "x") (corrMatrix ["x", "y"]
      [[("x", "1"), ("y", "1")], [("x", "2"), ("y", "2")], [("x", "3"), ("y", "4")]]) :=
  (claim_C4 ["x", "y"]
    [[("x", "1"), ("y", "1")], [("x", "2"), ("y", "2")], [("x", "3"), ("y", "4")]]
    (by decide) "x" "y").1

/-- Claim C9: when row acquisition fails, `profile()` raises the wrapped
`Error reading file: …` error and does not touch `self.profiles`; for a
freshly constructed profiler the profiles mapping is still empty. -/
theorem claim_C9 (e : String) (st : ProfilerState) :
    profileCall (Except.error e) st =
      (Except.error ("Error reading file: " ++ e), st) ∧
    (profileCall (Except.error e) initialState).2.profiles = [] :=
  ⟨rfl, rfl⟩

end CSVProfiler
